import Mathlib

/-!
Shallow embedding of the `page` terminal text viewer (src/main.rs):
the Buffer/Row data model, the Viewport/Cursor coordinate engine
(`handle_cursor_move`, `move_cursor_end_of_row`, the bound predicates),
the renderer (`draw_text`) and the startup/load path (`from_file`, `main`).

Rust `usize` values are modelled as `Nat`; the one place the source casts
through `i16` (`move_cursor_end_of_row`) is modelled with an explicit
two's-complement wrap.  Operations that can hit a Rust index panic are
modelled as `Option`-returning, with `none` for the panic.  Terminal
side effects (`execute!`/`queue!` escape sequences) do not change the
program state that the claims speak about and are omitted, as is the
terminal capability itself (an external collaborator).
-/

namespace Page

/-- The terminal dimensions (`TermInfo.width`, `TermInfo.height`). -/
structure Viewport where
  width : Nat
  height : Nat
deriving DecidableEq, Repr

/-- The `Cursor` struct: local position (`col`, `row`) and scroll offset
(`ren_col`, `ren_row`). -/
structure Cursor where
  col : Nat
  row : Nat
  ren_col : Nat
  ren_row : Nat
deriving DecidableEq, Repr

/-- A `Row` of the buffer: its characters. -/
structure Row where
  chars : List Char
deriving DecidableEq, Repr

/-- The `Text` struct: the buffer, an ordered list of rows. -/
structure Text where
  rows : List Row
deriving DecidableEq, Repr

/-- `Cursor::new()`: all four fields start at 0. -/
def Cursor.new : Cursor := ⟨0, 0, 0, 0⟩

/-- `Cursor::row_index`: `self.row + self.ren_row`. -/
def Cursor.row_index (c : Cursor) : Nat := c.row + c.ren_row

/-- `Cursor::col_index`: `self.col + self.ren_col`. -/
def Cursor.col_index (c : Cursor) : Nat := c.col + c.ren_col

/-- Rust `usize as i16`: truncate to 16 bits, reinterpret as signed. -/
def i16cast (n : Nat) : Int :=
  let m := n % 65536
  if m < 32768 then (m : Int) else (m : Int) - 65536

/-- Rust `i16` subtraction as a release build computes it: the exact
difference wrapped into [-32768, 32767] (a debug build would panic on
overflow instead). -/
def i16_sub (a b : Int) : Int := (a - b + 32768) % 65536 - 32768

/-- Rust `usize` subtraction of 1 as a release build computes it: wraps to
`2^64 - 1` at 0 (a debug build would panic on the underflow instead). -/
def usize_sub_one (n : Nat) : Nat :=
  (n + 18446744073709551615) % 18446744073709551616

/-- `Cursor::is_past_last_row`: `row_index as isize >= rows.len() as isize - 1`. -/
def Cursor.is_past_last_row (c : Cursor) (t : Text) : Bool :=
  decide ((c.row_index : Int) ≥ (t.rows.length : Int) - 1)

/-- The characters of row `i`, `none` when `i` is out of bounds
(where the source's `text.rows[i]` would panic). -/
def rowChars (t : Text) (i : Nat) : Option (List Char) :=
  (t.rows.get? i).map Row.chars

/-- `Cursor::is_past_row_end`: `col_index as isize >= rows[row_index].chars.len() as isize`;
`none` models the index panic when `row_index` is out of bounds. -/
def Cursor.is_past_row_end (c : Cursor) (t : Text) : Option Bool :=
  (rowChars t c.row_index).map fun cs =>
    decide ((c.col_index : Int) ≥ (cs.length : Int))

/-- `Cursor::move_cursor_end_of_row`: sets `col` to the current row's length and
`ren_col` to `max(0, row_len as i16 - width as i16) as usize`, with the `i16`
subtraction wrapping as in a release build; `none` models the index panic
when `row_index` is out of bounds. -/
def Cursor.move_cursor_end_of_row (c : Cursor) (vp : Viewport) (t : Text) : Option Cursor :=
  (rowChars t c.row_index).map fun cs =>
    { c with
      col := cs.length
      ren_col := (max 0 (i16_sub (i16cast cs.length) (i16cast vp.width))).toNat }

/-- `Cursor::handle_cursor_move`: dispatches on the key character
(`'k'` up, `'j'` down, `'h'` left, `'l'` right, anything else ignored),
after the empty-buffer guard.  The `term_info.height - 1` and
`term_info.width - 1` comparisons are `usize` subtractions, wrapping at 0 as
in a release build.  `none` models a Rust index panic. -/
def Cursor.handle_cursor_move (c : Cursor) (key_code : Char) (vp : Viewport) (t : Text) :
    Option Cursor :=
  if t.rows.isEmpty then some c
  else if key_code = 'k' then
    let c1 :=
      if c.row > 0 then { c with row := c.row - 1 }
      else if c.ren_row > 0 then { c with ren_row := c.ren_row - 1 }
      else c
    (c1.is_past_row_end t).bind fun past =>
      if past then c1.move_cursor_end_of_row vp t else some c1
  else if key_code = 'j' then
    let c1 :=
      if ¬ (c.is_past_last_row t) then
        if c.row < usize_sub_one vp.height then { c with row := c.row + 1 }
        else { c with ren_row := c.ren_row + 1 }
      else c
    (c1.is_past_row_end t).bind fun past =>
      if past then c1.move_cursor_end_of_row vp t else some c1
  else if key_code = 'h' then
    some
      (if c.col > 0 then { c with col := c.col - 1 }
       else if c.ren_col > 0 then { c with ren_col := c.ren_col - 1 }
       else c)
  else if key_code = 'l' then
    (c.is_past_row_end t).bind fun past =>
      if ¬ past then
        some
          (if c.col < usize_sub_one vp.width then { c with col := c.col + 1 }
           else { c with ren_col := c.ren_col + 1 })
      else some c
  else some c

/-- Iterated `handle_cursor_move` over a list of key characters. -/
def Cursor.run_moves (c : Cursor) (keys : List Char) (vp : Viewport) (t : Text) :
    Option Cursor :=
  match keys with
  | [] => some c
  | k :: rest => (c.handle_cursor_move k vp t).bind fun c1 => c1.run_moves rest vp t

/-- `vec![' '; term_info.width]`. -/
def blankLine (width : Nat) : List Char := List.replicate width ' '

/-- `slice.iter().enumerate().for_each(|(i, c)| line[i] = *c)`. -/
def writeSlice (line : List Char) (s : List Char) : List Char :=
  s.enum.foldl (fun acc ic => acc.set ic.1 ic.2) line

/-- One iteration of the y-loop in `Text::draw_text`: the visible line for
screen row `y`, built from row `y + ren_row` sliced at
`[ren_col .. min(row_len, ren_col + width)]` over a blank line. -/
def Text.draw_line (t : Text) (vp : Viewport) (cursor : Cursor) (y : Nat) : List Char :=
  let row_index := y + cursor.ren_row
  let line := blankLine vp.width
  match rowChars t row_index with
  | some cs =>
      if cursor.ren_col < cs.length then
        writeSlice line
          ((cs.drop cursor.ren_col).take (min cs.length (cursor.ren_col + vp.width) - cursor.ren_col))
      else line
  | none => line

/-- Sequences the per-row results of the draw loop, stopping at the first
failure (as the Rust loop would). -/
def seqLines (f : Nat → Option (List Char)) : List Nat → Option (List (List Char))
  | [] => some []
  | y :: ys => (f y).bind fun line => (seqLines f ys).map fun rest => line :: rest

/-- `Text::draw_text`: the grid of `height` visible lines; `none` models the
`y.try_into::<u16>().unwrap()` panic, which fires for `y > 65535`. -/
def Text.draw_text (t : Text) (vp : Viewport) (cursor : Cursor) :
    Option (List (List Char)) :=
  seqLines
    (fun y => if y < 65536 then some (t.draw_line vp cursor y) else none)
    (List.range vp.height)

/-- The line-ending strip in `Text::from_file`: pop a trailing line feed and
then an optional preceding carriage return. -/
def stripLineEnding (cs : List Char) : List Char :=
  if cs.getLast? = some '\n' then
    let c1 := cs.dropLast
    if c1.getLast? = some '\r' then c1.dropLast else c1
  else cs

/-- The error kind of §7: the input file cannot be opened. -/
inductive IOErr where
  | sourceUnavailable : IOErr
deriving DecidableEq, Repr

/-- `Text::from_file`: the `File::open` outcome is passed in as the content of
the line-reading capability (an external collaborator): `error` when the file
cannot be opened, otherwise the decoded lines, where a `none` line stands for
a line that failed to decode (`line.unwrap_or_default()` turns it into the
empty string).  `?` propagates the open failure. -/
def Text.from_file (openResult : Except IOErr (List (Option (List Char)))) :
    Except IOErr Text :=
  match openResult with
  | .error e => .error e
  | .ok fileLines =>
      .ok ⟨fileLines.map fun rl => ⟨stripLineEnding (rl.getD [])⟩⟩

/-- The startup path of `main`: with more than one argument the buffer is
loaded through `Text::from_file` (propagating its failure with `?`), else it
starts empty; afterwards the event loop runs until the quit command flips
`alive`, and `main` returns `Ok(())`.  Terminal I/O is the external
collaborator of §6 and is modelled as infallible. -/
def main_result (args : List (List Char))
    (openResult : Except IOErr (List (Option (List Char)))) : Except IOErr Unit :=
  match (if args.length > 1 then Text.from_file openResult else .ok ⟨[]⟩) with
  | .error e => .error e
  | .ok _ => .ok ()

/-- Modelled from the spec: the process exit code is not computed anywhere in
`src` — Rust's runtime maps a `main` that returns `Err` to a non-zero exit
code and `Ok` to exit code 0 ("Exit code 0 on normal quit; a non-zero code
(or equivalent error propagation) if the file cannot be opened"). -/
def exit_code (r : Except IOErr Unit) : Nat :=
  match r with
  | .ok _ => 0
  | .error _ => 1

/-- An 8-character row, `"abcdefgh"`. -/
def chars8 : List Char := ['a', 'b', 'c', 'd', 'e', 'f', 'g', 'h']

/-- A buffer with the single row `"abcdefgh"`. -/
def oneRow8 : Text := ⟨[⟨chars8⟩]⟩

/-- A buffer with a 10-character row above an 8-character row. -/
def rows10and8 : Text :=
  ⟨[⟨['q', 'w', 'e', 'r', 't', 'y', 'u', 'i', 'o', 'p']⟩, ⟨chars8⟩]⟩

/-- A buffer with an 8-character row above a 5-character row. -/
def rows8and5 : Text := ⟨[⟨chars8⟩, ⟨['a', 'b', 'c', 'd', 'e']⟩]⟩

/-- The buffer `["hello", "hi", ""]` of the spec's scenario. -/
def helloText : Text := ⟨[⟨['h', 'e', 'l', 'l', 'o']⟩, ⟨['h', 'i']⟩, ⟨[]⟩]⟩

theorem rowChars_eq_some_iff {t : Text} {i : Nat} {cs : List Char} :
    rowChars t i = some cs ↔ ∃ r, t.rows.get? i = some r ∧ r.chars = cs := by
  unfold rowChars
  constructor
  · intro h
    cases hg : t.rows.get? i with
    | none => rw [hg] at h; exact absurd h (by simp)
    | some r => rw [hg] at h; exact ⟨r, rfl, Option.some.inj h⟩
  · rintro ⟨r, hr, hcs⟩
    rw [hr, ← hcs]
    rfl

theorem rows_not_empty_of_rowChars {t : Text} {i : Nat} {cs : List Char}
    (h : rowChars t i = some cs) : t.rows.isEmpty = false := by
  obtain ⟨r, hr, -⟩ := rowChars_eq_some_iff.mp h
  cases hrows : t.rows with
  | nil => rw [hrows] at hr; simp at hr
  | cons a l => simp

theorem rowChars_eq_some_of_lt {t : Text} {i : Nat} (h : i < t.rows.length) :
    ∃ cs, rowChars t i = some cs := by
  cases hg : t.rows.get? i with
  | none => rw [List.get?_eq_none] at hg; omega
  | some r => exact ⟨r.chars, by unfold rowChars; rw [hg]; rfl⟩

theorem rowChars_length_lt {t : Text} {vp : Viewport} {i : Nat} {cs : List Char}
    (hall : ∀ r ∈ t.rows, r.chars.length < vp.width)
    (h : rowChars t i = some cs) : cs.length < vp.width := by
  obtain ⟨r, hr, hcs⟩ := rowChars_eq_some_iff.mp h
  exact hcs ▸ hall r (List.get?_mem hr)

theorem usize_sub_one_eq {n : Nat} (h1 : 0 < n) (h2 : n < 18446744073709551616) :
    usize_sub_one n = n - 1 := by
  unfold usize_sub_one
  omega

theorem usize_sub_one_succ_lt {n m : Nat} (h1 : m < n) (h2 : m < usize_sub_one n) :
    m + 1 < n := by
  unfold usize_sub_one at h2
  omega

/-- C7: when the buffer has zero rows, every move command leaves the entire
cursor state unchanged, for every viewport size and every key. -/
theorem empty_buffer_moves_are_noops (vp : Viewport) (k : Char) (c : Cursor) (t : Text)
    (h : t.rows = []) : c.handle_cursor_move k vp t = some c := by
  simp [Cursor.handle_cursor_move, h]

theorem empty_buffer_moves_are_noops_witness :
    (⟨[]⟩ : Text).rows = [] ∧
      Cursor.handle_cursor_move ⟨3, 4, 5, 6⟩ 'j' ⟨80, 24⟩ ⟨[]⟩ = some ⟨3, 4, 5, 6⟩ :=
  ⟨rfl, empty_buffer_moves_are_noops ⟨80, 24⟩ 'j' ⟨3, 4, 5, 6⟩ ⟨[]⟩ rfl⟩

/-- C10: when the file cannot be opened, `from_file`'s error propagates
through `main`, which exits with a non-zero code; when startup succeeds
(and the session ends with the quit command), the exit code is 0. -/
theorem open_failure_propagates_and_exit_codes (args : List (List Char)) (e : IOErr)
    (fileLines : List (Option (List Char))) (h : 1 < args.length) :
    main_result args (.error e) = .error e ∧
      exit_code (main_result args (.error e)) ≠ 0 ∧
      exit_code (main_result args (.ok fileLines)) = 0 := by
  have hgt : args.length > 1 := h
  refine ⟨?_, ?_, ?_⟩ <;> simp [main_result, Text.from_file, hgt, exit_code]

theorem open_failure_propagates_and_exit_codes_witness :
    1 < ([['p'], ['f']] : List (List Char)).length ∧
      (main_result [['p'], ['f']] (.error .sourceUnavailable) =
          .error .sourceUnavailable ∧
        exit_code (main_result [['p'], ['f']] (.error .sourceUnavailable)) ≠ 0 ∧
        exit_code (main_result [['p'], ['f']] (.ok [some ['x']])) = 0) :=
  ⟨by decide,
    open_failure_propagates_and_exit_codes [['p'], ['f']] .sourceUnavailable
      [some ['x']] (by decide)⟩

/-- C1: evaluating `move_cursor_end_of_row` on a row of length 8 with viewport
width 5 (cursor previously at the true end of the row, `col = 4`,
`ren_col = 4`): the code sets `col` to the full row length 8 and `ren_col` to
`max(0, 8 - 5) = 3`, so the logical column becomes 11, not the row length 8
required by the claim (`col` was meant to be `len - scroll_col = 5`). -/
theorem end_of_row_clamp_overshoots_eval :
    Cursor.move_cursor_end_of_row ⟨4, 0, 4, 0⟩ ⟨5, 1⟩ oneRow8 = some ⟨8, 0, 3, 0⟩ ∧
      Cursor.col_index ⟨8, 0, 3, 0⟩ = 11 ∧
      (oneRow8.rows.get? 0).map (fun r => r.chars.length) = some 8 := by
  decide

/-- C2: from the initial cursor on the buffer with row lengths 10 and 8
(viewport 5×4), Right ×10 followed by Down lands in row 1 with
`col = 8`, `ren_col = 3`: the logical column 11 exceeds the row length 8,
violating the claimed invariant. -/
theorem logical_column_invariant_violation_eval :
    Cursor.run_moves Cursor.new
        ['l', 'l', 'l', 'l', 'l', 'l', 'l', 'l', 'l', 'l', 'j'] ⟨5, 4⟩ rows10and8 =
      some ⟨8, 1, 3, 0⟩ ∧
      Cursor.row_index ⟨8, 1, 3, 0⟩ = 1 ∧
      (rows10and8.rows.get? 1).map (fun r => r.chars.length) = some 8 ∧
      8 < Cursor.col_index ⟨8, 1, 3, 0⟩ := by
  decide

/-- C6: for a viewport of positive, `usize`-realizable width (at width 0 the
source's `width - 1` underflows), Right is a no-op when the logical column
equals the current row's length; otherwise it increments `col` if
`col < width - 1` and `ren_col` otherwise, never moving the logical column
past the row length.  With width 5 on the row "abcdefgh": Right from
`col = 4` bumps `ren_col` to 1 with `col` staying 4 (logical column 5), and
Right at logical column 8 is a no-op. -/
theorem right_move_behavior (vp : Viewport) (t : Text) (c : Cursor) (cs : List Char)
    (hrow : rowChars t c.row_index = some cs)
    (hw0 : 0 < vp.width) (hwmax : vp.width < 18446744073709551616) :
    (c.col_index = cs.length → c.handle_cursor_move 'l' vp t = some c) ∧
    (c.col_index < cs.length →
      c.handle_cursor_move 'l' vp t =
        some (if c.col < vp.width - 1 then { c with col := c.col + 1 }
              else { c with ren_col := c.ren_col + 1 }) ∧
      (∀ c1, c.handle_cursor_move 'l' vp t = some c1 →
        c1.col_index = c.col_index + 1 ∧ c1.col_index ≤ cs.length)) ∧
    (Cursor.run_moves Cursor.new ['l', 'l', 'l', 'l'] ⟨5, 2⟩ oneRow8 = some ⟨4, 0, 0, 0⟩ ∧
      Cursor.handle_cursor_move ⟨4, 0, 0, 0⟩ 'l' ⟨5, 2⟩ oneRow8 = some ⟨4, 0, 1, 0⟩ ∧
      Cursor.col_index ⟨4, 0, 1, 0⟩ = 5 ∧
      Cursor.run_moves Cursor.new ['l', 'l', 'l', 'l', 'l', 'l', 'l', 'l'] ⟨5, 2⟩ oneRow8 =
        some ⟨4, 0, 4, 0⟩ ∧
      Cursor.col_index ⟨4, 0, 4, 0⟩ = 8 ∧
      Cursor.handle_cursor_move ⟨4, 0, 4, 0⟩ 'l' ⟨5, 2⟩ oneRow8 = some ⟨4, 0, 4, 0⟩) := by
  have hne := rows_not_empty_of_rowChars hrow
  refine ⟨?_, ?_, by decide⟩
  · intro heq
    have hb : c.is_past_row_end t = some true := by
      simp only [Cursor.is_past_row_end, hrow, Option.map]
      simp only [Option.some_inj, decide_eq_true_eq]
      omega
    simp [Cursor.handle_cursor_move, hne, hb]
  · intro hlt
    have hb : c.is_past_row_end t = some false := by
      simp only [Cursor.is_past_row_end, hrow, Option.map]
      simp only [Option.some_inj, decide_eq_false_iff_not, ge_iff_le, not_le]
      omega
    have hsub : usize_sub_one vp.width = vp.width - 1 := usize_sub_one_eq hw0 hwmax
    have heqn : c.handle_cursor_move 'l' vp t =
        some (if c.col < vp.width - 1 then { c with col := c.col + 1 }
              else { c with ren_col := c.ren_col + 1 }) := by
      simp [Cursor.handle_cursor_move, hne, hb, hsub]
    refine ⟨heqn, ?_⟩
    intro c1 h1
    rw [heqn] at h1
    by_cases hw : c.col < vp.width - 1 <;>
      simp [hw] at h1 <;>
      subst h1 <;>
      simp [Cursor.col_index] at hlt ⊢ <;>
      omega

theorem right_move_behavior_witness :
    (rowChars oneRow8 (Cursor.row_index ⟨2, 0, 0, 0⟩) = some chars8 ∧
      0 < (5 : Nat) ∧ (5 : Nat) < 18446744073709551616) ∧
      (Cursor.col_index ⟨2, 0, 0, 0⟩ < chars8.length →
        Cursor.handle_cursor_move ⟨2, 0, 0, 0⟩ 'l' ⟨5, 2⟩ oneRow8 =
          some (if (2 : Nat) < 5 - 1 then { col := 3, row := 0, ren_col := 0, ren_row := 0 }
                else { col := 2, row := 0, ren_col := 1, ren_row := 0 }) ∧
        (∀ c1, Cursor.handle_cursor_move ⟨2, 0, 0, 0⟩ 'l' ⟨5, 2⟩ oneRow8 = some c1 →
          c1.col_index = Cursor.col_index ⟨2, 0, 0, 0⟩ + 1 ∧ c1.col_index ≤ chars8.length)) :=
  ⟨⟨by decide, by decide, by decide⟩,
    (right_move_behavior ⟨5, 2⟩ oneRow8 ⟨2, 0, 0, 0⟩ chars8 (by decide) (by decide)
        (by decide)).2.1⟩

/-- C8 counterexample: on the single row "abcdefgh" with viewport width 5 the
state (col 4, ren_col 4) is reached from the initial state by Right ×8 and has
logical row 0, yet Up changes it (the clamp fires at the end-of-row position
and rewrites the column split), so Up from row 0 is not idempotent. -/
theorem up_at_top_changes_state_counterexample :
    Cursor.run_moves Cursor.new ['l', 'l', 'l', 'l', 'l', 'l', 'l', 'l'] ⟨5, 1⟩ oneRow8 =
      some ⟨4, 0, 4, 0⟩ ∧
      Cursor.row_index ⟨4, 0, 4, 0⟩ = 0 ∧
      Cursor.handle_cursor_move ⟨4, 0, 4, 0⟩ 'k' ⟨5, 1⟩ oneRow8 = some ⟨8, 0, 3, 0⟩ ∧
      (⟨8, 0, 3, 0⟩ : Cursor) ≠ ⟨4, 0, 4, 0⟩ := by
  decide

/-- C8 amended: Left at logical column 0 is always a no-op; Up at logical
row 0 never changes the vertical position, and is a full no-op when the
logical column is strictly inside row 0 (so the clamp does not fire) or the
cursor already sits at the clamp's fixed point `col = len`,
`ren_col = max(0, len - width)` (the `i16` subtraction wrapping as the
release build computes it). -/
theorem left_and_up_edge_noops :
    (∀ (vp : Viewport) (t : Text) (c : Cursor), c.col_index = 0 →
      c.handle_cursor_move 'h' vp t = some c) ∧
    (∀ (vp : Viewport) (t : Text) (c : Cursor) (c1 : Cursor), c.row_index = 0 →
      c.handle_cursor_move 'k' vp t = some c1 →
      c1.row = c.row ∧ c1.ren_row = c.ren_row) ∧
    (∀ (vp : Viewport) (t : Text) (c : Cursor) (cs : List Char), c.row_index = 0 →
      rowChars t 0 = some cs →
      (c.col_index < cs.length ∨
        (c.col = cs.length ∧
          c.ren_col = (max 0 (i16_sub (i16cast cs.length) (i16cast vp.width))).toNat)) →
      c.handle_cursor_move 'k' vp t = some c) := by
  refine ⟨?_, ?_, ?_⟩
  · intro vp t c hcol
    obtain ⟨cc, cr, crc, crr⟩ := c
    simp only [Cursor.col_index] at hcol
    have hcc : cc = 0 := by omega
    have hcrc : crc = 0 := by omega
    subst hcc hcrc
    by_cases he : t.rows.isEmpty <;> simp [Cursor.handle_cursor_move, he]
  · intro vp t c c1 hrow0 hmove
    by_cases he : t.rows.isEmpty
    · simp [Cursor.handle_cursor_move, he] at hmove
      subst hmove
      exact ⟨rfl, rfl⟩
    · obtain ⟨cc, cr, crc, crr⟩ := c
      simp only [Cursor.row_index] at hrow0
      have hcr : cr = 0 := by omega
      have hcrr : crr = 0 := by omega
      subst hcr hcrr
      have hstep : Cursor.handle_cursor_move ⟨cc, 0, crc, 0⟩ 'k' vp t =
          (Cursor.is_past_row_end ⟨cc, 0, crc, 0⟩ t).bind fun past =>
            if past then Cursor.move_cursor_end_of_row ⟨cc, 0, crc, 0⟩ vp t
            else some ⟨cc, 0, crc, 0⟩ := by
        simp [Cursor.handle_cursor_move, he]
      rw [hstep] at hmove
      cases hg : rowChars t 0 with
      | none =>
          have hb : Cursor.is_past_row_end ⟨cc, 0, crc, 0⟩ t = none := by
            simp [Cursor.is_past_row_end, Cursor.row_index, hg]
          rw [hb] at hmove
          simp at hmove
      | some cs =>
          have hb : Cursor.is_past_row_end ⟨cc, 0, crc, 0⟩ t =
              some (decide (((cc + crc : Nat) : Int) ≥ (cs.length : Int))) := by
            simp [Cursor.is_past_row_end, Cursor.row_index, Cursor.col_index, hg]
          have hcl : Cursor.move_cursor_end_of_row ⟨cc, 0, crc, 0⟩ vp t =
              some ⟨cs.length, 0, (max 0 (i16_sub (i16cast cs.length) (i16cast vp.width))).toNat, 0⟩ := by
            simp [Cursor.move_cursor_end_of_row, Cursor.row_index, hg]
          rw [hb] at hmove
          simp only [Option.some_bind] at hmove
          split at hmove
          · rw [hcl] at hmove
            simp only [Option.some_inj] at hmove
            subst hmove
            exact ⟨rfl, rfl⟩
          · simp only [Option.some_inj] at hmove
            subst hmove
            exact ⟨rfl, rfl⟩
  · intro vp t c cs hrow0 hcs0 hcase
    have hne := rows_not_empty_of_rowChars hcs0
    obtain ⟨cc, cr, crc, crr⟩ := c
    simp only [Cursor.row_index] at hrow0
    have hcr : cr = 0 := by omega
    have hcrr : crr = 0 := by omega
    subst hcr hcrr
    have hri : Cursor.row_index ⟨cc, 0, crc, 0⟩ = 0 := rfl
    rcases hcase with hlt | ⟨hcol, hren⟩
    · have hb : Cursor.is_past_row_end ⟨cc, 0, crc, 0⟩ t = some false := by
        simp only [Cursor.is_past_row_end, hri, hcs0, Option.map]
        simp only [Option.some_inj, decide_eq_false_iff_not, ge_iff_le, not_le]
        simp only [Cursor.col_index] at hlt ⊢
        omega
      simp [Cursor.handle_cursor_move, hne, hb]
    · have hb : Cursor.is_past_row_end ⟨cc, 0, crc, 0⟩ t = some true := by
        simp only [Cursor.is_past_row_end, hri, hcs0, Option.map]
        simp only [Option.some_inj, decide_eq_true_eq, ge_iff_le]
        simp only [Cursor.col_index] at hcol ⊢
        omega
      have hcl : Cursor.move_cursor_end_of_row ⟨cc, 0, crc, 0⟩ vp t =
          some ⟨cc, 0, crc, 0⟩ := by
        have hcol2 : cc = cs.length := hcol
        have hren2 : crc = (max 0 (i16_sub (i16cast cs.length) (i16cast vp.width))).toNat := hren
        simp only [Cursor.move_cursor_end_of_row, hri, hcs0, Option.map_some',
          Option.some_inj]
        subst hcol2
        rw [hren2]
      simp [Cursor.handle_cursor_move, hne, hb, hcl]

theorem left_and_up_edge_noops_witness :
    (Cursor.col_index ⟨0, 2, 0, 1⟩ = 0 ∧
      Cursor.handle_cursor_move ⟨0, 2, 0, 1⟩ 'h' ⟨5, 3⟩ helloText = some ⟨0, 2, 0, 1⟩) ∧
      (Cursor.row_index ⟨1, 0, 0, 0⟩ = 0 ∧ rowChars helloText 0 = some ['h', 'e', 'l', 'l', 'o'] ∧
        Cursor.handle_cursor_move ⟨1, 0, 0, 0⟩ 'k' ⟨5, 3⟩ helloText = some ⟨1, 0, 0, 0⟩) :=
  ⟨⟨by decide, left_and_up_edge_noops.1 ⟨5, 3⟩ helloText ⟨0, 2, 0, 1⟩ (by decide)⟩,
    ⟨by decide, by decide,
      left_and_up_edge_noops.2.2 ⟨5, 3⟩ helloText ⟨1, 0, 0, 0⟩ ['h', 'e', 'l', 'l', 'o']
        (by decide) (by decide) (Or.inl (by decide))⟩⟩

/-- C5 counterexample: on the single row "abcdefgh" (so logical row 0 is the
last row) with viewport width 5, the state (col 4, ren_col 4) reached by
Right ×8 is changed by Down: the clamp fires at the end-of-row position and
rewrites the column split, so Down at the last row is not a no-op. -/
theorem down_at_last_row_not_noop_counterexample :
    Cursor.run_moves Cursor.new ['l', 'l', 'l', 'l', 'l', 'l', 'l', 'l'] ⟨5, 1⟩ oneRow8 =
      some ⟨4, 0, 4, 0⟩ ∧
      Cursor.row_index ⟨4, 0, 4, 0⟩ = oneRow8.rows.length - 1 ∧
      Cursor.handle_cursor_move ⟨4, 0, 4, 0⟩ 'j' ⟨5, 1⟩ oneRow8 = some ⟨8, 0, 3, 0⟩ ∧
      (⟨8, 0, 3, 0⟩ : Cursor) ≠ ⟨4, 0, 4, 0⟩ := by
  decide

/-- C5 amended: at the last row Down makes no vertical move but still runs the
end-of-row clamp (which fires at `logical column ≥ row length`, so the state
can still change); it is a full no-op there when the logical column is
strictly inside the row.  Below the last row, for a viewport of positive,
`usize`-realizable height (at height 0 the source's `height - 1` underflows),
Down moves the logical row down by one — incrementing `row` when
`row < height - 1` and `ren_row` otherwise — and then, when the new logical
column is `≥` the new row's length, applies the code's clamp (`col := len`,
`ren_col := max(0, len - width)` with the `i16` subtraction wrapping).  The
spec's scenario on ["hello", "hi", ""] with viewport 10×3 holds as stated. -/
theorem down_move_behavior :
    (∀ (vp : Viewport) (t : Text) (c c1 : Cursor),
      ((c.row_index : Int) ≥ (t.rows.length : Int) - 1) →
      c.handle_cursor_move 'j' vp t = some c1 →
      c1.row = c.row ∧ c1.ren_row = c.ren_row) ∧
    (∀ (vp : Viewport) (t : Text) (c : Cursor) (cs : List Char),
      ((c.row_index : Int) ≥ (t.rows.length : Int) - 1) →
      rowChars t c.row_index = some cs →
      c.col_index < cs.length →
      c.handle_cursor_move 'j' vp t = some c) ∧
    (∀ (vp : Viewport) (t : Text) (c : Cursor) (cs : List Char),
      ¬ ((c.row_index : Int) ≥ (t.rows.length : Int) - 1) →
      rowChars t (c.row_index + 1) = some cs →
      0 < vp.height → vp.height < 18446744073709551616 →
      ∃ c1, c.handle_cursor_move 'j' vp t = some c1 ∧
        c1.row_index = c.row_index + 1 ∧
        (c.row < vp.height - 1 → c1.row = c.row + 1 ∧ c1.ren_row = c.ren_row) ∧
        (¬ c.row < vp.height - 1 → c1.row = c.row ∧ c1.ren_row = c.ren_row + 1) ∧
        (c.col_index < cs.length → c1.col = c.col ∧ c1.ren_col = c.ren_col) ∧
        (cs.length ≤ c.col_index →
          c1.col = cs.length ∧
          c1.ren_col = (max 0 (i16_sub (i16cast cs.length) (i16cast vp.width))).toNat)) ∧
    (Cursor.run_moves Cursor.new ['l', 'l', 'l', 'l', 'l'] ⟨10, 3⟩ helloText =
        some ⟨5, 0, 0, 0⟩ ∧
      Cursor.handle_cursor_move ⟨5, 0, 0, 0⟩ 'j' ⟨10, 3⟩ helloText = some ⟨2, 1, 0, 0⟩ ∧
      Cursor.handle_cursor_move ⟨2, 1, 0, 0⟩ 'j' ⟨10, 3⟩ helloText = some ⟨0, 2, 0, 0⟩ ∧
      Cursor.handle_cursor_move ⟨0, 2, 0, 0⟩ 'j' ⟨10, 3⟩ helloText = some ⟨0, 2, 0, 0⟩) := by
  refine ⟨?_, ?_, ?_, by decide⟩
  · intro vp t c c1 hlast hmove
    by_cases he : t.rows.isEmpty
    · simp [Cursor.handle_cursor_move, he] at hmove
      subst hmove
      exact ⟨rfl, rfl⟩
    · have hlt : Cursor.is_past_last_row c t = true := by
        simpa [Cursor.is_past_last_row] using hlast
      have hstep : Cursor.handle_cursor_move c 'j' vp t =
          (c.is_past_row_end t).bind fun past =>
            if past then c.move_cursor_end_of_row vp t else some c := by
        simp [Cursor.handle_cursor_move, he, hlt]
      rw [hstep] at hmove
      cases hg : rowChars t c.row_index with
      | none =>
          have hb : c.is_past_row_end t = none := by
            simp [Cursor.is_past_row_end, hg]
          rw [hb] at hmove
          simp at hmove
      | some cs =>
          have hb : c.is_past_row_end t =
              some (decide ((c.col_index : Int) ≥ (cs.length : Int))) := by
            simp [Cursor.is_past_row_end, hg]
          have hcl : c.move_cursor_end_of_row vp t =
              some { c with
                col := cs.length
                ren_col := (max 0 (i16_sub (i16cast cs.length) (i16cast vp.width))).toNat } := by
            simp [Cursor.move_cursor_end_of_row, hg]
          rw [hb] at hmove
          simp only [Option.some_bind] at hmove
          split at hmove
          · rw [hcl] at hmove
            simp only [Option.some_inj] at hmove
            subst hmove
            exact ⟨rfl, rfl⟩
          · simp only [Option.some_inj] at hmove
            subst hmove
            exact ⟨rfl, rfl⟩
  · intro vp t c cs hlast hcs hcol
    have hne := rows_not_empty_of_rowChars hcs
    have hlt : Cursor.is_past_last_row c t = true := by
      simpa [Cursor.is_past_last_row] using hlast
    have hb : c.is_past_row_end t = some false := by
      simp only [Cursor.is_past_row_end, hcs, Option.map_some', Option.some_inj,
        decide_eq_false_iff_not, ge_iff_le, not_le]
      exact_mod_cast hcol
    simp [Cursor.handle_cursor_move, hne, hlt, hb]
  · intro vp t c cs hnot hcs h0h hmaxh
    have hne := rows_not_empty_of_rowChars hcs
    have hsub : usize_sub_one vp.height = vp.height - 1 := usize_sub_one_eq h0h hmaxh
    obtain ⟨cc, cr, crc, crr⟩ := c
    simp only [Cursor.row_index] at hnot hcs
    have hlf : Cursor.is_past_last_row ⟨cc, cr, crc, crr⟩ t = false := by
      simp only [Cursor.is_past_last_row, Cursor.row_index]
      simpa using hnot
    by_cases hh : cr < vp.height - 1
    · have hidx : cr + 1 + crr = cr + crr + 1 := by omega
      have hrc : rowChars t (cr + 1 + crr) = some cs := by rw [hidx]; exact hcs
      by_cases hpast : cs.length ≤ cc + crc
      · have hb : Cursor.is_past_row_end ⟨cc, cr + 1, crc, crr⟩ t = some true := by
          simp only [Cursor.is_past_row_end, Cursor.row_index, Cursor.col_index, hrc,
            Option.map_some', Option.some_inj, decide_eq_true_eq, ge_iff_le]
          exact_mod_cast hpast
        have hcl : Cursor.move_cursor_end_of_row ⟨cc, cr + 1, crc, crr⟩ vp t =
            some ⟨cs.length, cr + 1,
              (max 0 (i16_sub (i16cast cs.length) (i16cast vp.width))).toNat, crr⟩ := by
          simp [Cursor.move_cursor_end_of_row, Cursor.row_index, hrc]
        refine ⟨⟨cs.length, cr + 1,
          (max 0 (i16_sub (i16cast cs.length) (i16cast vp.width))).toNat, crr⟩, ?_, ?_, ?_, ?_, ?_, ?_⟩
        · simp [Cursor.handle_cursor_move, hne, hlf, hsub, hh, hb, hcl]
        · simp only [Cursor.row_index]
          omega
        · intro
          exact ⟨rfl, rfl⟩
        · intro hcontra
          exact absurd hh hcontra
        · intro hltc
          exact absurd hltc (by simp only [Cursor.col_index]; omega)
        · intro
          exact ⟨rfl, rfl⟩
      · have hb : Cursor.is_past_row_end ⟨cc, cr + 1, crc, crr⟩ t = some false := by
          simp only [Cursor.is_past_row_end, Cursor.row_index, Cursor.col_index, hrc,
            Option.map_some', Option.some_inj, decide_eq_false_iff_not, ge_iff_le, not_le]
          push_cast
          omega
        refine ⟨⟨cc, cr + 1, crc, crr⟩, ?_, ?_, ?_, ?_, ?_, ?_⟩
        · simp [Cursor.handle_cursor_move, hne, hlf, hsub, hh, hb]
        · simp only [Cursor.row_index]
          omega
        · intro
          exact ⟨rfl, rfl⟩
        · intro hcontra
          exact absurd hh hcontra
        · intro
          exact ⟨rfl, rfl⟩
        · intro hge
          exact absurd hge (by simp only [Cursor.col_index]; omega)
    · have hidx : cr + (crr + 1) = cr + crr + 1 := by omega
      have hrc : rowChars t (cr + (crr + 1)) = some cs := by rw [hidx]; exact hcs
      by_cases hpast : cs.length ≤ cc + crc
      · have hb : Cursor.is_past_row_end ⟨cc, cr, crc, crr + 1⟩ t = some true := by
          simp only [Cursor.is_past_row_end, Cursor.row_index, Cursor.col_index, hrc,
            Option.map_some', Option.some_inj, decide_eq_true_eq, ge_iff_le]
          exact_mod_cast hpast
        have hcl : Cursor.move_cursor_end_of_row ⟨cc, cr, crc, crr + 1⟩ vp t =
            some ⟨cs.length, cr,
              (max 0 (i16_sub (i16cast cs.length) (i16cast vp.width))).toNat, crr + 1⟩ := by
          simp [Cursor.move_cursor_end_of_row, Cursor.row_index, hrc]
        refine ⟨⟨cs.length, cr,
          (max 0 (i16_sub (i16cast cs.length) (i16cast vp.width))).toNat, crr + 1⟩, ?_, ?_, ?_, ?_, ?_, ?_⟩
        · simp [Cursor.handle_cursor_move, hne, hlf, hsub, hh, hb, hcl]
        · simp only [Cursor.row_index]
          omega
        · intro hcontra
          exact absurd hcontra hh
        · intro
          exact ⟨rfl, rfl⟩
        · intro hltc
          exact absurd hltc (by simp only [Cursor.col_index]; omega)
        · intro
          exact ⟨rfl, rfl⟩
      · have hb : Cursor.is_past_row_end ⟨cc, cr, crc, crr + 1⟩ t = some false := by
          simp only [Cursor.is_past_row_end, Cursor.row_index, Cursor.col_index, hrc,
            Option.map_some', Option.some_inj, decide_eq_false_iff_not, ge_iff_le, not_le]
          push_cast
          omega
        refine ⟨⟨cc, cr, crc, crr + 1⟩, ?_, ?_, ?_, ?_, ?_, ?_⟩
        · simp [Cursor.handle_cursor_move, hne, hlf, hsub, hh, hb]
        · simp only [Cursor.row_index]
          omega
        · intro hcontra
          exact absurd hcontra hh
        · intro
          exact ⟨rfl, rfl⟩
        · intro
          exact ⟨rfl, rfl⟩
        · intro hge
          exact absurd hge (by simp only [Cursor.col_index]; omega)

theorem down_move_behavior_witness :
    ¬ ((Cursor.row_index Cursor.new : Int) ≥ (helloText.rows.length : Int) - 1) ∧
      rowChars helloText (Cursor.row_index Cursor.new + 1) = some ['h', 'i'] ∧
      0 < (3 : Nat) ∧ (3 : Nat) < 18446744073709551616 ∧
      ∃ c1, Cursor.handle_cursor_move Cursor.new 'j' ⟨10, 3⟩ helloText = some c1 ∧
        c1.row_index = Cursor.row_index Cursor.new + 1 ∧
        (Cursor.new.row < (3 : Nat) - 1 →
          c1.row = Cursor.new.row + 1 ∧ c1.ren_row = Cursor.new.ren_row) ∧
        (¬ Cursor.new.row < (3 : Nat) - 1 →
          c1.row = Cursor.new.row ∧ c1.ren_row = Cursor.new.ren_row + 1) ∧
        (Cursor.col_index Cursor.new < (['h', 'i'] : List Char).length →
          c1.col = Cursor.new.col ∧ c1.ren_col = Cursor.new.ren_col) ∧
        ((['h', 'i'] : List Char).length ≤ Cursor.col_index Cursor.new →
          c1.col = (['h', 'i'] : List Char).length ∧
          c1.ren_col =
            (max 0 (i16_sub (i16cast (['h', 'i'] : List Char).length) (i16cast 10))).toNat) :=
  ⟨by decide, by decide, by decide, by decide,
    by
      have h := down_move_behavior.2.2.1 ⟨10, 3⟩ helloText Cursor.new ['h', 'i']
        (by decide) (by decide) (by decide) (by decide)
      simpa using h⟩

/-- C3 counterexample: on the buffer ["abcdefgh", "abcde"] with viewport 5×2,
from the initial state Right ×8 then Down yields `col = 5 = width`: the
end-of-row clamp on a row of length ≥ width drives `col` to the row length,
so `col < Viewport.width` is not preserved. -/
theorem local_col_exceeds_width_counterexample :
    Cursor.run_moves Cursor.new ['l', 'l', 'l', 'l', 'l', 'l', 'l', 'l', 'j'] ⟨5, 2⟩
        rows8and5 = some ⟨5, 1, 0, 0⟩ ∧
      ¬ ((⟨5, 1, 0, 0⟩ : Cursor).col < (⟨5, 2⟩ : Viewport).width) := by
  decide

/-- C3 amended: for a viewport with positive dimensions, the initial state
satisfies `row < height` and `col < width`; every move preserves
`row < Viewport.height` unconditionally, and preserves `col < Viewport.width`
provided every row of the buffer is shorter than the viewport width (the
end-of-row clamp sets `col` to the clamped row's full length, so a row of
length ≥ width breaks the `col` bound, as the counterexample shows). -/
theorem local_bounds_preserved :
    (∀ vp : Viewport, 0 < vp.width → 0 < vp.height →
      Cursor.new.row < vp.height ∧ Cursor.new.col < vp.width) ∧
    (∀ (vp : Viewport) (t : Text) (k : Char) (c c1 : Cursor),
      c.row < vp.height →
      c.handle_cursor_move k vp t = some c1 →
      c1.row < vp.height) ∧
    (∀ (vp : Viewport) (t : Text) (k : Char) (c c1 : Cursor),
      (∀ r ∈ t.rows, r.chars.length < vp.width) →
      c.col < vp.width →
      c.handle_cursor_move k vp t = some c1 →
      c1.col < vp.width) := by
  refine ⟨?_, ?_, ?_⟩
  · intro vp hw hh
    exact ⟨hh, hw⟩
  · intro vp t k c c1 hrow hmove
    by_cases he : t.rows.isEmpty
    · simp [Cursor.handle_cursor_move, he] at hmove
      subst hmove
      exact hrow
    · have hclamp : ∀ c2 c3 : Cursor, c2.row < vp.height →
          c2.move_cursor_end_of_row vp t = some c3 → c3.row < vp.height := by
        intro c2 c3 h2 hcl
        cases hg : rowChars t c2.row_index with
        | none => rw [Cursor.move_cursor_end_of_row, hg] at hcl; simp at hcl
        | some cs =>
            rw [Cursor.move_cursor_end_of_row, hg] at hcl
            simp only [Option.map_some', Option.some_inj] at hcl
            subst hcl
            exact h2
      have hstep : ∀ c2 c3 : Cursor, c2.row < vp.height →
          ((c2.is_past_row_end t).bind fun past =>
            if past then c2.move_cursor_end_of_row vp t else some c2) = some c3 →
          c3.row < vp.height := by
        intro c2 c3 h2 hbind
        cases hb : c2.is_past_row_end t with
        | none => rw [hb] at hbind; simp at hbind
        | some past =>
            rw [hb] at hbind
            simp only [Option.some_bind] at hbind
            split at hbind
            · exact hclamp c2 c3 h2 hbind
            · simp only [Option.some_inj] at hbind
              subst hbind
              exact h2
      by_cases hk : k = 'k'
      · subst hk
        have hred : Cursor.handle_cursor_move c 'k' vp t =
            ((if c.row > 0 then { c with row := c.row - 1 }
              else if c.ren_row > 0 then { c with ren_row := c.ren_row - 1 }
              else c).is_past_row_end t).bind fun past =>
              if past then
                (if c.row > 0 then { c with row := c.row - 1 }
                 else if c.ren_row > 0 then { c with ren_row := c.ren_row - 1 }
                 else c).move_cursor_end_of_row vp t
              else some
                (if c.row > 0 then { c with row := c.row - 1 }
                 else if c.ren_row > 0 then { c with ren_row := c.ren_row - 1 }
                 else c) := by
          simp [Cursor.handle_cursor_move, he]
        rw [hred] at hmove
        refine hstep _ c1 ?_ hmove
        split
        · show c.row - 1 < vp.height
          omega
        · split
          · show c.row < vp.height
            exact hrow
          · exact hrow
      · by_cases hj : k = 'j'
        · subst hj
          have hred : Cursor.handle_cursor_move c 'j' vp t =
              ((if ¬ (c.is_past_last_row t) then
                  if c.row < usize_sub_one vp.height then { c with row := c.row + 1 }
                  else { c with ren_row := c.ren_row + 1 }
                else c).is_past_row_end t).bind fun past =>
                if past then
                  (if ¬ (c.is_past_last_row t) then
                    if c.row < usize_sub_one vp.height then { c with row := c.row + 1 }
                    else { c with ren_row := c.ren_row + 1 }
                  else c).move_cursor_end_of_row vp t
                else some
                  (if ¬ (c.is_past_last_row t) then
                    if c.row < usize_sub_one vp.height then { c with row := c.row + 1 }
                    else { c with ren_row := c.ren_row + 1 }
                  else c) := by
            simp [Cursor.handle_cursor_move, he]
          rw [hred] at hmove
          refine hstep _ c1 ?_ hmove
          split
          · split
            · rename_i hcond
              show c.row + 1 < vp.height
              exact usize_sub_one_succ_lt hrow hcond
            · show c.row < vp.height
              exact hrow
          · exact hrow
        · by_cases hhk : k = 'h'
          · subst hhk
            have hred : Cursor.handle_cursor_move c 'h' vp t =
                some (if c.col > 0 then { c with col := c.col - 1 }
                      else if c.ren_col > 0 then { c with ren_col := c.ren_col - 1 }
                      else c) := by
              simp [Cursor.handle_cursor_move, he]
            rw [hred] at hmove
            simp only [Option.some_inj] at hmove
            subst hmove
            split
            · exact hrow
            · split
              · exact hrow
              · exact hrow
          · by_cases hl : k = 'l'
            · subst hl
              have hred : Cursor.handle_cursor_move c 'l' vp t =
                  (c.is_past_row_end t).bind fun past =>
                    if ¬ past then
                      some (if c.col < usize_sub_one vp.width then { c with col := c.col + 1 }
                            else { c with ren_col := c.ren_col + 1 })
                    else some c := by
                simp [Cursor.handle_cursor_move, he]
              rw [hred] at hmove
              cases hb : c.is_past_row_end t with
              | none => rw [hb] at hmove; simp at hmove
              | some past =>
                  rw [hb] at hmove
                  simp only [Option.some_bind] at hmove
                  split at hmove
                  · simp only [Option.some_inj] at hmove
                    subst hmove
                    split
                    · exact hrow
                    · exact hrow
                  · simp only [Option.some_inj] at hmove
                    subst hmove
                    exact hrow
            · have hid : Cursor.handle_cursor_move c k vp t = some c := by
                simp [Cursor.handle_cursor_move, he, hk, hj, hhk, hl]
              rw [hid] at hmove
              simp only [Option.some_inj] at hmove
              subst hmove
              exact hrow
  · intro vp t k c c1 hall hcol hmove
    by_cases he : t.rows.isEmpty
    · simp [Cursor.handle_cursor_move, he] at hmove
      subst hmove
      exact hcol
    · have hclamp : ∀ c2 c3 : Cursor,
          c2.move_cursor_end_of_row vp t = some c3 → c3.col < vp.width := by
        intro c2 c3 hcl
        cases hg : rowChars t c2.row_index with
        | none => rw [Cursor.move_cursor_end_of_row, hg] at hcl; simp at hcl
        | some cs =>
            rw [Cursor.move_cursor_end_of_row, hg] at hcl
            simp only [Option.map_some', Option.some_inj] at hcl
            subst hcl
            exact rowChars_length_lt hall hg
      have hstep : ∀ c2 c3 : Cursor, c2.col < vp.width →
          ((c2.is_past_row_end t).bind fun past =>
            if past then c2.move_cursor_end_of_row vp t else some c2) = some c3 →
          c3.col < vp.width := by
        intro c2 c3 h2 hbind
        cases hb : c2.is_past_row_end t with
        | none => rw [hb] at hbind; simp at hbind
        | some past =>
            rw [hb] at hbind
            simp only [Option.some_bind] at hbind
            split at hbind
            · exact hclamp c2 c3 hbind
            · simp only [Option.some_inj] at hbind
              subst hbind
              exact h2
      by_cases hk : k = 'k'
      · subst hk
        have hred : Cursor.handle_cursor_move c 'k' vp t =
            ((if c.row > 0 then { c with row := c.row - 1 }
              else if c.ren_row > 0 then { c with ren_row := c.ren_row - 1 }
              else c).is_past_row_end t).bind fun past =>
              if past then
                (if c.row > 0 then { c with row := c.row - 1 }
                 else if c.ren_row > 0 then { c with ren_row := c.ren_row - 1 }
                 else c).move_cursor_end_of_row vp t
              else some
                (if c.row > 0 then { c with row := c.row - 1 }
                 else if c.ren_row > 0 then { c with ren_row := c.ren_row - 1 }
                 else c) := by
          simp [Cursor.handle_cursor_move, he]
        rw [hred] at hmove
        refine hstep _ c1 ?_ hmove
        split
        · exact hcol
        · split
          · exact hcol
          · exact hcol
      · by_cases hj : k = 'j'
        · subst hj
          have hred : Cursor.handle_cursor_move c 'j' vp t =
              ((if ¬ (c.is_past_last_row t) then
                  if c.row < usize_sub_one vp.height then { c with row := c.row + 1 }
                  else { c with ren_row := c.ren_row + 1 }
                else c).is_past_row_end t).bind fun past =>
                if past then
                  (if ¬ (c.is_past_last_row t) then
                    if c.row < usize_sub_one vp.height then { c with row := c.row + 1 }
                    else { c with ren_row := c.ren_row + 1 }
                  else c).move_cursor_end_of_row vp t
                else some
                  (if ¬ (c.is_past_last_row t) then
                    if c.row < usize_sub_one vp.height then { c with row := c.row + 1 }
                    else { c with ren_row := c.ren_row + 1 }
                  else c) := by
            simp [Cursor.handle_cursor_move, he]
          rw [hred] at hmove
          refine hstep _ c1 ?_ hmove
          split
          · split
            · exact hcol
            · exact hcol
          · exact hcol
        · by_cases hhk : k = 'h'
          · subst hhk
            have hred : Cursor.handle_cursor_move c 'h' vp t =
                some (if c.col > 0 then { c with col := c.col - 1 }
                      else if c.ren_col > 0 then { c with ren_col := c.ren_col - 1 }
                      else c) := by
              simp [Cursor.handle_cursor_move, he]
            rw [hred] at hmove
            simp only [Option.some_inj] at hmove
            subst hmove
            split
            · show c.col - 1 < vp.width
              omega
            · split
              · exact hcol
              · exact hcol
          · by_cases hl : k = 'l'
            · subst hl
              have hred : Cursor.handle_cursor_move c 'l' vp t =
                  (c.is_past_row_end t).bind fun past =>
                    if ¬ past then
                      some (if c.col < usize_sub_one vp.width then { c with col := c.col + 1 }
                            else { c with ren_col := c.ren_col + 1 })
                    else some c := by
                simp [Cursor.handle_cursor_move, he]
              rw [hred] at hmove
              cases hb : c.is_past_row_end t with
              | none => rw [hb] at hmove; simp at hmove
              | some past =>
                  rw [hb] at hmove
                  simp only [Option.some_bind] at hmove
                  split at hmove
                  · simp only [Option.some_inj] at hmove
                    subst hmove
                    split
                    · rename_i hcond
                      show c.col + 1 < vp.width
                      exact usize_sub_one_succ_lt hcol hcond
                    · exact hcol
                  · simp only [Option.some_inj] at hmove
                    subst hmove
                    exact hcol
            · have hid : Cursor.handle_cursor_move c k vp t = some c := by
                simp [Cursor.handle_cursor_move, he, hk, hj, hhk, hl]
              rw [hid] at hmove
              simp only [Option.some_inj] at hmove
              subst hmove
              exact hcol

theorem local_bounds_preserved_witness :
    (0 < (5 : Nat) ∧ 0 < (2 : Nat) ∧ Cursor.new.row < 2 ∧ Cursor.new.col < 5) ∧
      ((⟨4, 0, 4, 0⟩ : Cursor).row < 2 ∧
        Cursor.handle_cursor_move ⟨4, 0, 4, 0⟩ 'j' ⟨9, 2⟩ rows8and5 = some ⟨5, 1, 0, 0⟩ ∧
        (⟨5, 1, 0, 0⟩ : Cursor).row < 2) ∧
      ((∀ r ∈ rows8and5.rows, r.chars.length < 9) ∧
        (⟨4, 0, 4, 0⟩ : Cursor).col < 9 ∧ (⟨5, 1, 0, 0⟩ : Cursor).col < 9) :=
  ⟨⟨by decide, by decide,
      (local_bounds_preserved.1 ⟨5, 2⟩ (by decide) (by decide)).1,
      (local_bounds_preserved.1 ⟨5, 2⟩ (by decide) (by decide)).2⟩,
    ⟨by decide, by decide,
      local_bounds_preserved.2.1 ⟨9, 2⟩ rows8and5 'j' ⟨4, 0, 4, 0⟩ ⟨5, 1, 0, 0⟩
        (by decide) (by decide)⟩,
    ⟨by decide, by decide,
      local_bounds_preserved.2.2 ⟨9, 2⟩ rows8and5 'j' ⟨4, 0, 4, 0⟩ ⟨5, 1, 0, 0⟩
        (by decide) (by decide) (by decide)⟩⟩

theorem seqLines_isSome (f : Nat → Option (List Char)) (l : List Nat)
    (h : ∀ y ∈ l, (f y).isSome) : (seqLines f l).isSome := by
  induction l with
  | nil => simp [seqLines]
  | cons y ys ih =>
      have hy := h y (by simp)
      obtain ⟨line, hline⟩ := Option.isSome_iff_exists.mp hy
      have hys := ih fun z hz => h z (by simp [hz])
      obtain ⟨rest, hrest⟩ := Option.isSome_iff_exists.mp hys
      simp [seqLines, hline, hrest]

/-- C9 counterexample: with the non-empty buffer ["a"] and the cursor state
(row = 5), Up indexes row 4 of a 1-row buffer: the unguarded
`text.rows[self.row_index()]` panics (modelled as `none`), so the move
operations are not total over every cursor state. -/
theorem move_on_invalid_row_panics_counterexample :
    Cursor.handle_cursor_move ⟨0, 5, 0, 0⟩ 'k' ⟨5, 5⟩ ⟨[⟨['a']⟩]⟩ = none := by
  decide

/-- C9 amended: every move command returns normally (no panic, modelled as
`isSome`) for every key, every viewport with positive dimensions, and every
cursor state whose logical row is a valid row index (or whose buffer is
empty); rendering returns normally for every buffer and cursor state, for
every viewport of height at most 65536 (beyond which the source's
`y.try_into::<u16>().unwrap()` panics). -/
theorem operations_total_on_valid_states :
    (∀ (vp : Viewport) (t : Text) (k : Char) (c : Cursor),
      0 < vp.width → 0 < vp.height →
      (t.rows = [] ∨ c.row_index < t.rows.length) →
      (c.handle_cursor_move k vp t).isSome) ∧
    (∀ (t : Text) (vp : Viewport) (c : Cursor),
      vp.height ≤ 65536 → (t.draw_text vp c).isSome) := by
  constructor
  · intro vp t k c hw hh hvalid
    rcases hvalid with hemp | hvalid
    · simp [Cursor.handle_cursor_move, hemp]
    · have hne : t.rows.isEmpty = false := by
        cases hrows : t.rows with
        | nil => rw [hrows] at hvalid; simp at hvalid
        | cons a l => simp
      have hbind : ∀ c2 : Cursor, c2.row_index < t.rows.length →
          ((c2.is_past_row_end t).bind fun past =>
            if past then c2.move_cursor_end_of_row vp t else some c2).isSome := by
        intro c2 h2
        obtain ⟨cs, hcs⟩ := rowChars_eq_some_of_lt h2
        have hb : c2.is_past_row_end t =
            some (decide ((c2.col_index : Int) ≥ (cs.length : Int))) := by
          simp [Cursor.is_past_row_end, hcs]
        rw [hb]
        simp only [Option.some_bind]
        split
        · simp [Cursor.move_cursor_end_of_row, hcs]
        · simp
      by_cases hk : k = 'k'
      · subst hk
        have hred : Cursor.handle_cursor_move c 'k' vp t =
            ((if c.row > 0 then { c with row := c.row - 1 }
              else if c.ren_row > 0 then { c with ren_row := c.ren_row - 1 }
              else c).is_past_row_end t).bind fun past =>
              if past then
                (if c.row > 0 then { c with row := c.row - 1 }
                 else if c.ren_row > 0 then { c with ren_row := c.ren_row - 1 }
                 else c).move_cursor_end_of_row vp t
              else some
                (if c.row > 0 then { c with row := c.row - 1 }
                 else if c.ren_row > 0 then { c with ren_row := c.ren_row - 1 }
                 else c) := by
          simp [Cursor.handle_cursor_move, hne]
        rw [hred]
        refine hbind _ ?_
        split
        · simp only [Cursor.row_index] at hvalid ⊢
          omega
        · split
          · simp only [Cursor.row_index] at hvalid ⊢
            omega
          · exact hvalid
      · by_cases hj : k = 'j'
        · subst hj
          have hred : Cursor.handle_cursor_move c 'j' vp t =
              ((if ¬ (c.is_past_last_row t) then
                  if c.row < usize_sub_one vp.height then { c with row := c.row + 1 }
                  else { c with ren_row := c.ren_row + 1 }
                else c).is_past_row_end t).bind fun past =>
                if past then
                  (if ¬ (c.is_past_last_row t) then
                    if c.row < usize_sub_one vp.height then { c with row := c.row + 1 }
                    else { c with ren_row := c.ren_row + 1 }
                  else c).move_cursor_end_of_row vp t
                else some
                  (if ¬ (c.is_past_last_row t) then
                    if c.row < usize_sub_one vp.height then { c with row := c.row + 1 }
                    else { c with ren_row := c.ren_row + 1 }
                  else c) := by
            simp [Cursor.handle_cursor_move, hne]
          rw [hred]
          refine hbind _ ?_
          split
          · rename_i hpl
            have hsmall : (c.row_index : Int) < (t.rows.length : Int) - 1 := by
              simp [Cursor.is_past_last_row] at hpl
              omega
            split <;>
              (simp only [Cursor.row_index] at hsmall ⊢
               omega)
          · exact hvalid
        · by_cases hhk : k = 'h'
          · subst hhk
            simp [Cursor.handle_cursor_move, hne]
          · by_cases hl : k = 'l'
            · subst hl
              obtain ⟨cs, hcs⟩ := rowChars_eq_some_of_lt hvalid
              have hb : c.is_past_row_end t =
                  some (decide ((c.col_index : Int) ≥ (cs.length : Int))) := by
                simp [Cursor.is_past_row_end, hcs]
              have hred : Cursor.handle_cursor_move c 'l' vp t =
                  (c.is_past_row_end t).bind fun past =>
                    if ¬ past then
                      some (if c.col < usize_sub_one vp.width then { c with col := c.col + 1 }
                            else { c with ren_col := c.ren_col + 1 })
                    else some c := by
                simp [Cursor.handle_cursor_move, hne]
              rw [hred, hb]
              simp only [Option.some_bind]
              split <;> simp
            · simp [Cursor.handle_cursor_move, hne, hk, hj, hhk, hl]
  · intro t vp c h65
    apply seqLines_isSome
    intro y hy
    have hyh : y < vp.height := List.mem_range.mp hy
    have hy6 : y < 65536 := by omega
    simp [hy6]

theorem operations_total_on_valid_states_witness :
    (0 < (5 : Nat) ∧ 0 < (5 : Nat) ∧
      (oneRow8.rows = [] ∨ Cursor.row_index ⟨0, 0, 0, 0⟩ < oneRow8.rows.length) ∧
      (Cursor.handle_cursor_move ⟨0, 0, 0, 0⟩ 'j' ⟨5, 5⟩ oneRow8).isSome) ∧
      ((5 : Nat) ≤ 65536 ∧ (oneRow8.draw_text ⟨4, 5⟩ ⟨0, 0, 0, 0⟩).isSome) :=
  ⟨⟨by decide, by decide, Or.inr (by decide),
      operations_total_on_valid_states.1 ⟨5, 5⟩ oneRow8 'j' ⟨0, 0, 0, 0⟩
        (by decide) (by decide) (Or.inr (by decide))⟩,
    ⟨by decide,
      operations_total_on_valid_states.2 oneRow8 ⟨4, 5⟩ ⟨0, 0, 0, 0⟩ (by decide)⟩⟩

/-- The renderer line contract of §4.3, stated from the spec's words: the
visible line for screen row `y` shows logical row `y + scroll_row`; if that
row is out of range the line is all spaces, otherwise it is the slice of the
row starting at `scroll_col`, up to `width` characters, right-padded with
spaces to the full width. -/
def render_spec_line (t : Text) (vp : Viewport) (cursor : Cursor) (y : Nat) : List Char :=
  match rowChars t (y + cursor.ren_row) with
  | none => List.replicate vp.width ' '
  | some cs =>
      let s := (cs.drop cursor.ren_col).take vp.width
      s ++ List.replicate (vp.width - s.length) ' '

theorem writeSlice_aux (s : List Char) (p : List Char) (w : Nat)
    (h : p.length + s.length ≤ w) :
    (s.enumFrom p.length).foldl (fun acc ic => acc.set ic.1 ic.2)
        (p ++ List.replicate (w - p.length) ' ') =
      (p ++ s) ++ List.replicate (w - p.length - s.length) ' ' := by
  induction s generalizing p with
  | nil => simp
  | cons a s ih =>
      simp only [List.enumFrom_cons, List.foldl_cons]
      have hset : (p ++ List.replicate (w - p.length) ' ').set p.length a =
          (p ++ [a]) ++ List.replicate (w - (p ++ [a]).length) ' ' := by
        simp only [List.set_append, lt_self_iff_false, if_false, Nat.sub_self]
        have h1 : w - p.length = (w - (p ++ [a]).length) + 1 := by
          simp only [List.length_cons] at h
          simp only [List.length_append, List.length_cons, List.length_nil]
          omega
        rw [h1, List.replicate_succ, List.set_cons_zero]
        simp
      rw [hset]
      have hlen : (p ++ [a]).length = p.length + 1 := by simp
      have h2 : (p ++ [a]).length + s.length ≤ w := by
        simp only [List.length_cons] at h
        simp only [List.length_append, List.length_cons, List.length_nil]
        omega
      have h3 := ih (p ++ [a]) h2
      rw [hlen] at h3
      rw [hlen, h3]
      have harith : w - (p.length + 1) - s.length = w - p.length - (a :: s).length := by
        simp only [List.length_cons]
        omega
      rw [harith]
      simp

theorem writeSlice_blank (s : List Char) (w : Nat) (h : s.length ≤ w) :
    writeSlice (blankLine w) s = s ++ List.replicate (w - s.length) ' ' := by
  have haux := writeSlice_aux s [] w (by simpa using h)
  simpa [writeSlice, blankLine, List.enum_eq_enumFrom] using haux

theorem draw_line_eq_spec (t : Text) (vp : Viewport) (cursor : Cursor) (y : Nat) :
    t.draw_line vp cursor y = render_spec_line t vp cursor y := by
  cases hg : rowChars t (y + cursor.ren_row) with
  | none => simp [Text.draw_line, render_spec_line, hg, blankLine]
  | some cs =>
      simp only [Text.draw_line, render_spec_line, hg]
      by_cases hrc : cursor.ren_col < cs.length
      · rw [if_pos hrc]
        have hsl : (cs.drop cursor.ren_col).take
              (min cs.length (cursor.ren_col + vp.width) - cursor.ren_col) =
            (cs.drop cursor.ren_col).take vp.width := by
          apply List.take_eq_take.mpr
          simp only [List.length_drop]
          omega
        rw [hsl]
        have hlen : ((cs.drop cursor.ren_col).take vp.width).length ≤ vp.width := by
          simp only [List.length_take]
          omega
        exact writeSlice_blank _ _ hlen
      · rw [if_neg hrc]
        have hdrop : cs.drop cursor.ren_col = [] :=
          List.drop_eq_nil_of_le (by omega)
        simp [hdrop, blankLine]

theorem render_spec_line_length (t : Text) (vp : Viewport) (cursor : Cursor) (y : Nat) :
    (render_spec_line t vp cursor y).length = vp.width := by
  unfold render_spec_line
  cases rowChars t (y + cursor.ren_row) with
  | none => simp
  | some cs =>
      simp only [List.length_append, List.length_take, List.length_replicate,
        List.length_drop]
      omega

theorem seqLines_eq_map (f : Nat → Option (List Char)) (g : Nat → List Char)
    (l : List Nat) (h : ∀ y ∈ l, f y = some (g y)) :
    seqLines f l = some (l.map g) := by
  induction l with
  | nil => rfl
  | cons y ys ih =>
      simp [seqLines, h y (by simp), ih fun z hz => h z (by simp [hz])]

/-- C4: for every buffer, cursor state, and viewport of valid (u16) height,
rendering produces exactly `height` lines of exactly `width` characters, and
line `y` is exactly the spec's contract: all spaces when logical row
`y + scroll_row` is out of range, otherwise the slice of that row from
`scroll_col`, up to `width` characters, right-padded with spaces. -/
theorem render_grid_contract (t : Text) (vp : Viewport) (cursor : Cursor)
    (hvh : vp.height ≤ 65535) :
    ∃ g, t.draw_text vp cursor = some g ∧
      g.length = vp.height ∧
      (∀ line ∈ g, line.length = vp.width) ∧
      (∀ y, y < vp.height → g.get? y = some (render_spec_line t vp cursor y)) := by
  have hmap : t.draw_text vp cursor =
      some ((List.range vp.height).map fun y => t.draw_line vp cursor y) := by
    unfold Text.draw_text
    apply seqLines_eq_map
    intro y hy
    have hy6 : y < 65536 := by
      have := List.mem_range.mp hy
      omega
    simp [hy6]
  refine ⟨_, hmap, ?_, ?_, ?_⟩
  · simp
  · intro line hline
    obtain ⟨y, -, hyeq⟩ := List.mem_map.mp hline
    rw [← hyeq, draw_line_eq_spec]
    exact render_spec_line_length t vp cursor y
  · intro y hy
    rw [List.get?_map, List.get?_range hy]
    simp [draw_line_eq_spec]

theorem render_grid_contract_witness :
    (⟨4, 2⟩ : Viewport).height ≤ 65535 ∧
      ∃ g, helloText.draw_text ⟨4, 2⟩ ⟨0, 0, 1, 1⟩ = some g ∧
        g.length = 2 ∧
        (∀ line ∈ g, line.length = 4) ∧
        (∀ y, y < 2 → g.get? y = some (render_spec_line helloText ⟨4, 2⟩ ⟨0, 0, 1, 1⟩ y)) :=
  ⟨by decide, render_grid_contract helloText ⟨4, 2⟩ ⟨0, 0, 1, 1⟩ (by decide)⟩
